import Mathlib

/-!
Verification development for the `royal` hierarchical state machine runtime.

The definitions below are a shallow embedding of the core engine
(`Node`, `Context`, and the transition / guard / update protocol).
Caller-supplied callbacks (state enter/update/exit handlers and guard
handlers) are represented syntactically: a handler is a list of actions
(`tell` / `ask` / `set` / `log` / `proceed`) plus a description of its
return value, and the interpreter `step` executes them exactly as the
engine would invoke the corresponding closures.  JavaScript exceptions
are modelled by threading a `Machine × Option Err` result: mutations
performed before a throw persist, and a raised error aborts the
remaining statements of every enclosing call, as `throw` does.

The live context tree is stored as an association list from paths
(lists of child names from the root) to per-context records.  A child
context object in the source is reachable only through its parent's
`contextOf` map, whose key set is fixed at construction; replacing a
child context overwrites the entry at the same path, matching the
source, where the old object simply becomes unreachable.
-/

/-- Error kinds raised by the engine.  `typeError` stands for the
JavaScript `TypeError` raised by a property access on
`undefined`/`null`; `fuel` is an artifact of the fuel-bounded
interpreter and corresponds to no source behaviour. -/
inductive Err where
  | unknownChild
  | unknownState
  | invalidTransition
  | duplicateChild
  | stateInconsistency
  | missingHandler
  | typeError
  | fuel
deriving DecidableEq, Repr

/-- The `MachineState` enum of the source (NONE, ENTER, EXIT, GUARD, UPDATE). -/
inductive MachineState where
  | none
  | enter
  | exit
  | guard
  | update
deriving DecidableEq, Repr

/-- Association list lookup: first entry with the given key,
mirroring a JavaScript object property read. -/
def getA {κ α : Type} [DecidableEq κ] : List (κ × α) → κ → Option α
  | [], _ => Option.none
  | (k0, v0) :: t, k => if k = k0 then some v0 else getA t k

/-- Association list write: update the first entry with the given key in
place, else append, mirroring a JavaScript object property write
(insertion order is preserved on overwrite). -/
def setA {κ α : Type} [DecidableEq κ] : List (κ × α) → κ → α → List (κ × α)
  | [], k, v => [(k, v)]
  | (k0, v0) :: t, k, v => if k = k0 then (k0, v) :: t else (k0, v0) :: setA t k v

/-- Immutable tree node: `name`, `states`, the flat `children` array and
the `childMap` from state (or "*") to a name-keyed map of child nodes,
as built by the `Node` constructor. -/
inductive Node where
  | mk (name : String) (states : List String) (children : List Node)
      (childMap : List (String × List (String × Node)))

def Node.name : Node → String
  | .mk n _ _ _ => n

def Node.states : Node → List String
  | .mk _ s _ _ => s

def Node.children : Node → List Node
  | .mk _ _ c _ => c

def Node.childMap : Node → List (String × List (String × Node))
  | .mk _ _ _ cm => cm

/-- A constructor argument: either a plain child `Node` or a
`Restrictor` wrapping grandchildren behind a list of parent states. -/
inductive ChildSpec where
  | plain (child : Node)
  | restrict (states : List String) (children : List Node)

/-- The childMap skeleton built by the constructor before children are
inserted: one empty map per declared state, plus the "*" map. -/
def initChildMap (states : List String) : List (String × List (String × Node)) :=
  states.map (fun s => (s, [])) ++ [("*", [])]

/-- One grandchild of a `Restrictor`, inserted under each listed state
in turn.  The duplicate check consults only `childMap[state]` (not
`childMap["*"]`), and the child is pushed onto `children` once per
state, exactly as in the source loop.  A restriction state that the
parent does not declare hits an undefined `childMap[state]` and raises
a `TypeError` in the source. -/
def addRestricted (cm : List (String × List (String × Node))) (acc : List Node)
    (g : Node) : List String → Except Err (List (String × List (String × Node)) × List Node)
  | [] => .ok (cm, acc)
  | st :: rest =>
    match getA cm st with
    | Option.none => .error .typeError
    | some inner =>
      if (getA inner g.name).isSome then .error .duplicateChild
      else addRestricted (setA cm st (setA inner g.name g)) (acc ++ [g]) g rest

/-- All grandchildren of one `Restrictor`. -/
def addRestrictor (cm : List (String × List (String × Node))) (acc : List Node)
    (states : List String) : List Node → Except Err (List (String × List (String × Node)) × List Node)
  | [] => .ok (cm, acc)
  | g :: rest => do
    let (cm1, acc1) ← addRestricted cm acc g states
    addRestrictor cm1 acc1 states rest

/-- The constructor's loop over the `children` argument.  A plain child
is checked against (and inserted into) `childMap["*"]` only. -/
def buildChildren (cm : List (String × List (String × Node))) (acc : List Node) :
    List ChildSpec → Except Err (List (String × List (String × Node)) × List Node)
  | [] => .ok (cm, acc)
  | .plain c :: rest =>
    match getA cm "*" with
    | Option.none => .error .typeError
    | some inner =>
      if (getA inner c.name).isSome then .error .duplicateChild
      else buildChildren (setA cm "*" (setA inner c.name c)) (acc ++ [c]) rest
  | .restrict sts gs :: rest => do
    let (cm1, acc1) ← addRestrictor cm acc sts gs
    buildChildren cm1 acc1 rest

/-- The `Node` constructor: builds the childMap and flat child list,
failing with `duplicateChild` exactly where the source throws
`Duplicate node`. -/
def mkNode (name : String) (states : List String) (children : List ChildSpec) :
    Except Err Node := do
  let (cm, kids) ← buildChildren (initChildMap states) [] children
  .ok (Node.mk name states kids cm)

/-- `hasState`: a declared state, or the literal "*", is accepted. -/
def Node.hasState (n : Node) (st : String) : Bool :=
  n.states.contains st || st == "*"

/-- `hasChild(name, state)`: visible either under the given state or
unrestricted. -/
def Node.hasChild (n : Node) (name st : String) : Bool :=
  if !n.hasState st then false
  else (getA ((getA n.childMap st).getD []) name).isSome
    || (getA ((getA n.childMap "*").getD []) name).isSome

/-- `hasTransition(from, to)` (the wildcard disjuncts are redundant
given `hasState`, but are kept as in the source). -/
def Node.hasTransition (n : Node) (fromS toS : String) : Bool :=
  (n.hasState fromS || fromS == "*") && (n.hasState toS || toS == "*")

/-- JavaScript `extend(base, obj)`: copy entries of `obj` into `base`,
overwriting in place and appending new keys. -/
def extendA : List (String × Node) → List (String × Node) → List (String × Node)
  | acc, [] => acc
  | acc, (k, v) :: t => extendA (setA acc k v) t

/-- `getChildren(state)`: the union of unrestricted children and those
restricted to the given state, in object key order (returns `none`
where the source returns `null`). -/
def Node.getChildren (n : Node) (st : String) : Option (List Node) :=
  if !n.hasState st then Option.none
  else some ((extendA (extendA [] ((getA n.childMap "*").getD []))
      ((getA n.childMap st).getD [])).map (fun kv => kv.2))

/-- One action performed by a caller-supplied handler body.  State
handlers act on the context they receive (`tell`/`ask`/`set`/`log`);
guard handlers receive only the `Guard` capability, for which `proceed`
and `log` are meaningful. -/
inductive Act where
  | tell (name state : String)
  | ask (name state : String)
  | set (state : String)
  | log (tag : String)
  | proceed
deriving Repr

/-- The value returned by an enter callback: nothing (void / null /
false), boolean `true`, a bare exit function, or a partial handler
object carrying optional update / exit overrides. -/
inductive Ret where
  | rnothing
  | rtrue
  | rexit (tags : List String)
  | rpart (upd : Option (List Act)) (ex : Option (List String))
deriving Repr

/-- An enter callback: a list of actions to run, then a return value. -/
structure Prog where
  acts : List Act
  ret : Ret
deriving Repr

/-- A handler record (`Handler<T>` in the source): enter / update /
exit slots, each possibly null.  Update callbacks are action lists;
exit callbacks only log (the engine calls them with no arguments). -/
structure HandlerV where
  enter : Option Prog
  update : Option (List Act)
  exit : Option (List String)
deriving Repr

/-- A `TransCommand`: the requesting node is kept by name (it is used
only to compute the informational `Guard.from` label). -/
structure Cmd where
  sourceName : String
  target : Node
  fromState : Option String
  toState : String

/-- The per-context record behind a `Context` instance: its node, the
state it was entered at, the reentrancy flag, and the six per-child
maps created by `initChild`.  `liveOf` is `true` where `contextOf`
holds a context (the context itself lives at `path ++ [name]` in the
machine). -/
structure CtxData where
  node : Node
  state : String
  machineState : MachineState
  nodeOf : List (String × Node)
  stateOf : List (String × Option String)
  handlerOf : List (String × List (String × HandlerV))
  guardOf : List (String × List (String × List (String × HandlerV)))
  queueOf : List (String × List Cmd)
  liveOf : List (String × Bool)

/-- The shared `HSMConfig`. -/
structure Config where
  debug : Bool
  requireHandler : Bool
deriving DecidableEq, Repr

/-- A guard left pending by its enter callback: enough for the caller
to invoke the captured `proceed` closure later (the source keeps no
such registry; this models the caller storing the `Guard` object). -/
structure PendingG where
  path : List String
  cmd : Cmd

/-- The whole machine: the live context tree keyed by path, the shared
config (one object shared by reference from the root in the source),
pending guards held by callers, and the observation log. -/
structure Machine where
  ctxs : List (List String × CtxData)
  config : Config
  pendings : List PendingG
  log : List String

/-- `initChild` applied to every child visible in the entered state, as
the `Context` constructor does.  The state was validated by `schedule`
(or is the root's "*"), so `getChildren` is defined. -/
def mkCtxData (node : Node) (st : String) : CtxData :=
  { node := node
    state := st
    machineState := .none
    nodeOf := ((node.getChildren st).getD []).map (fun k => (k.name, k))
    stateOf := ((node.getChildren st).getD []).map (fun k => (k.name, Option.none))
    handlerOf := ((node.getChildren st).getD []).map (fun k => (k.name, []))
    guardOf := ((node.getChildren st).getD []).map (fun k => (k.name, []))
    queueOf := ((node.getChildren st).getD []).map (fun k => (k.name, ([] : List Cmd)))
    liveOf := ((node.getChildren st).getD []).map (fun k => (k.name, false)) }

abbrev MRes := Machine × Option Err

def ok (m : Machine) : MRes := (m, Option.none)

def fail (m : Machine) (e : Err) : MRes := (m, some e)

/-- Sequencing with exception propagation: a raised error skips the
continuation, keeping the state reached at the throw. -/
def seqR (r : MRes) (k : Machine → MRes) : MRes :=
  match r with
  | (m, some e) => (m, some e)
  | (m, Option.none) => k m

/-- Update the context record at a path (a method mutating `this`). -/
def modCtx (m : Machine) (path : List String) (f : CtxData → CtxData) : Machine :=
  match getA m.ctxs path with
  | Option.none => m
  | some c => { m with ctxs := setA m.ctxs path (f c) }

def setMS (m : Machine) (path : List String) (ms : MachineState) : Machine :=
  modCtx m path (fun c => { c with machineState := ms })

def setLive (m : Machine) (path : List String) (name : String) (b : Bool) : Machine :=
  modCtx m path (fun c => { c with liveOf := setA c.liveOf name b })

def setSt (m : Machine) (path : List String) (name : String) (v : Option String) : Machine :=
  modCtx m path (fun c => { c with stateOf := setA c.stateOf name v })

def setQ (m : Machine) (path : List String) (name : String) (q : List Cmd) : Machine :=
  modCtx m path (fun c => { c with queueOf := setA c.queueOf name q })

/-- `queue.shift()`: drop the front of the queue at `path`/`name`. -/
def shiftQ (m : Machine) (path : List String) (name : String) : Machine :=
  modCtx m path (fun c =>
    { c with queueOf := setA c.queueOf name ((getA c.queueOf name).getD []).tail })

def pushLog (m : Machine) (tags : List String) : Machine :=
  { m with log := m.log ++ tags }

def addPending (m : Machine) (pg : PendingG) : Machine :=
  { m with pendings := m.pendings ++ [pg] }

/-- `new Context(target, this, toState, data)` registered under the
parent: a fresh record replaces whatever was at that path. -/
def newChild (m : Machine) (path : List String) (node : Node) (st : String) : Machine :=
  { m with ctxs := setA m.ctxs (path ++ [node.name]) (mkCtxData node st) }

/-- Mutate the registered state handler object for `(name, st)`
(the source mutates the captured `newHandler` object, which is the one
stored in `handlerOf`; the modelled programs never re-register a
handler mid-flight, so looking it up again is equivalent). -/
def wireState (m : Machine) (path : List String) (name st : String)
    (f : HandlerV → HandlerV) : Machine :=
  modCtx m path (fun c =>
    match getA ((getA c.handlerOf name).getD []) st with
    | Option.none => c
    | some h =>
      { c with handlerOf :=
          (setA c.handlerOf name (setA ((getA c.handlerOf name).getD []) st (f h))) })

/-- Mutate the registered guard handler object for `(name, fk, tk)`. -/
def wireGuard (m : Machine) (path : List String) (name fk tk : String)
    (f : HandlerV → HandlerV) : Machine :=
  modCtx m path (fun c =>
    match getA ((getA c.guardOf name).getD []) fk with
    | Option.none => c
    | some tg =>
      match getA tg tk with
      | Option.none => c
      | some h =>
        { c with guardOf :=
            (setA c.guardOf name (setA ((getA c.guardOf name).getD []) fk (setA tg tk (f h)))) })

/-- `fromGuards[from] || fromGuards['*']` with the selected key.  A
null recorded `fromState` reads an absent property in the source. -/
def pickFrom (g : List (String × List (String × HandlerV))) (fromS : Option String) :
    Option (String × List (String × HandlerV)) :=
  match fromS with
  | some f =>
    match getA g f with
    | some tg => some (f, tg)
    | Option.none => (getA g "*").map (fun tg => ("*", tg))
  | Option.none => (getA g "*").map (fun tg => ("*", tg))

/-- `toGuards[to] || toGuards['*']` with the selected key. -/
def pickTo (tg : List (String × HandlerV)) (toS : String) : Option (String × HandlerV) :=
  match getA tg toS with
  | some h => some (toS, h)
  | Option.none => (getA tg "*").map (fun h => ("*", h))

/-- The guard lookup of `execGuard` (source lines 348-350), returning
the two keys it resolved so that `proceed` wiring can write back. -/
def guardSelect (g : List (String × List (String × HandlerV))) (fromS : Option String)
    (toS : String) : Option (String × String × HandlerV) :=
  match pickFrom g fromS with
  | Option.none => Option.none
  | some (fk, tg) => (pickTo tg toS).map (fun p => (fk, p.1, p.2))

/-- `isGuarded`, with the same two-stage fallback (note: when
`fromGuards[from]` exists but matches no `to`, the "*" from-map is not
retried). -/
def isGuarded (c : CtxData) (name : String) (fromS : Option String) (toS : String) : Bool :=
  match getA c.guardOf name with
  | Option.none => false
  | some fg =>
    match pickFrom fg fromS with
    | Option.none => false
    | some (_, tg) => (pickTo tg toS).isSome

/-- The queue update in `schedule` (source lines 433-439): append while
the queue holds at most one entry; overwrite the second (pending,
not-yet-started) slot when it holds two. -/
def scheduleQueue (q : List Cmd) (c : Cmd) : List Cmd :=
  if q.length ≤ 1 then q ++ [c]
  else if q.length = 2 then q.set 1 c
  else q

/-- The engine's mutually recursive procedures plus handler-program
execution, reified so the fuel-indexed interpreter `step` can tie the
recursion in one place. -/
inductive Op where
  | schedule (path : List String) (sourceName : String) (target : Option Node)
      (fromS : Option String) (toS : String)
  | runQ (path : List String) (name : String)
  | execState (path : List String) (cmd : Cmd)
  | execTransition (path : List String) (cmd : Cmd)
  | execGuard (path : List String) (cmd : Cmd)
  | proceed (path : List String) (cmd : Cmd)
  | acts (selfPath : List String) (as : List Act)
  | guardActs (path : List String) (cmd : Cmd) (as : List Act)
  | updateCtx (path : List String) (delta : Nat)
  | updateKids (path : List String) (names : List String) (delta : Nat)
  | tell (path : List String) (name state : String)
  | ask (path : List String) (name state : String)
  | setOp (path : List String) (state : String)

/-- The exit half of `execTransition` (source lines 305-315): when the
command records an old state whose registered handler has an exit
callback, run it and null the live child context.  With no recorded
old state, no handler, or no exit callback, nothing happens (the old
context, if any, stays registered until the enter half overwrites it). -/
def exitHalf (m : Machine) (path : List String) (hs : List (String × HandlerV))
    (fromS : Option String) (tname : String) : Machine :=
  match fromS with
  | Option.none => m
  | some fs =>
    match getA hs fs with
    | Option.none => m
    | some oldH =>
      match oldH.exit with
      | Option.none => m
      | some tags => setMS (setLive (pushLog (setMS m path .exit) tags) path tname false) path .none

/-- The committing part of the enter half (source lines 329-331):
construct the child context, register it live, record the new state. -/
def enterCommit (m : Machine) (path : List String) (target : Node) (toS : String) : Machine :=
  setSt (setLive (newChild (setMS m path .enter) path target toS) path target.name true)
    path target.name (some toS)

/-- Follow-up wiring decided by a state enter callback's return value
(source lines 336-342): a partial handler installs update and exit; a
bare function installs only exit; anything else installs nothing. -/
def wireFromRet (m : Machine) (path : List String) (tname toS : String) : Ret → Machine
  | .rpart u e => wireState m path tname toS (fun h => { h with update := u, exit := e })
  | .rexit tags => wireState m path tname toS (fun h => { h with exit := some tags })
  | _ => m

/-- The enter half of `execTransition` (source lines 317-342), applied
after the exit half.  With no registered handler, strict mode raises
`missingHandler` before any mutation of this half; non-strict mode
commits the transition and then raises `typeError` dereferencing the
missing handler (`newHandler.enter` on `undefined`, source line 332). -/
def stepEnterHalf (rec : Machine → Op → MRes) (m : Machine) (path : List String)
    (cmd : Cmd) : Option HandlerV → MRes
  | Option.none =>
    if m.config.requireHandler then fail m .missingHandler
    else fail (enterCommit m path cmd.target cmd.toState) .typeError
  | some newH =>
    match newH.enter with
    | Option.none => ok (setMS (enterCommit m path cmd.target cmd.toState) path .none)
    | some p =>
      seqR (rec (enterCommit m path cmd.target cmd.toState)
          (.acts (path ++ [cmd.target.name]) p.acts)) (fun m6 =>
        ok (wireFromRet (setMS m6 path .none) path cmd.target.name cmd.toState p.ret))

/-- `execTransition` (the handler map is read once; the exit half does
not modify it). -/
def stepExecTransition (rec : Machine → Op → MRes) (m : Machine) (path : List String)
    (cmd : Cmd) : MRes :=
  match getA m.ctxs path with
  | Option.none => fail m .typeError
  | some c =>
    stepEnterHalf rec
      (exitHalf m path ((getA c.handlerOf cmd.target.name).getD []) cmd.fromState cmd.target.name)
      path cmd (getA ((getA c.handlerOf cmd.target.name).getD []) cmd.toState)

/-- The body of `guard.proceed` after the guard's own exit hook ran
(source lines 368-377): with another entry pending, execute inline;
otherwise push the command as a temporary marker, execute, shift it
off, and drain the queue afresh. -/
def stepProceedQ (rec : Machine → Op → MRes) (m : Machine) (path : List String)
    (cmd : Cmd) : MRes :=
  match getA m.ctxs path with
  | Option.none => fail m .typeError
  | some c1 =>
    if ((getA c1.queueOf cmd.target.name).getD []).length > 0 then
      rec m (.execTransition path cmd)
    else
      seqR (rec (setQ m path cmd.target.name (((getA c1.queueOf cmd.target.name).getD []) ++ [cmd]))
          (.execTransition path cmd)) (fun m3 =>
        rec (shiftQ m3 path cmd.target.name) (.runQ path cmd.target.name))

/-- The guard's own exit hook at the start of `proceed` (source lines
360-366). -/
def guardExitHalf (m : Machine) (path : List String) : Option (List String) → Machine
  | Option.none => m
  | some tags => setMS (pushLog (setMS m path .exit) tags) path .none

/-- `guard.proceed` (source lines 359-378).  The source closure
captured the selected handler object; the modelled programs never
re-register a guard mid-flight, so the fresh lookup selects that same
(possibly rewired) handler. -/
def stepProceed (rec : Machine → Op → MRes) (m : Machine) (path : List String)
    (cmd : Cmd) : MRes :=
  match getA m.ctxs path with
  | Option.none => fail m .typeError
  | some c =>
    match guardSelect ((getA c.guardOf cmd.target.name).getD []) cmd.fromState cmd.toState with
    | Option.none => fail m .typeError
    | some (_, _, handler) => stepProceedQ rec (guardExitHalf m path handler.exit) path cmd

def guardRetOf : Option Prog → Ret
  | some p => p.ret
  | Option.none => .rnothing

/-- `handler.enter ? handler.enter(guard) : null` for a guard. -/
def stepGuardEnter (rec : Machine → Op → MRes) (m : Machine) (path : List String)
    (cmd : Cmd) : Option Prog → MRes
  | some p => rec m (.guardActs path cmd p.acts)
  | Option.none => ok m

/-- Dispatch on a guard enter callback's return value (source lines
387-396): `true` proceeds immediately; a partial handler or bare
function is stored on the guard handler for a later `proceed` — the
guard stays pending (recorded in `pendings`, modelling the caller
keeping the `Guard` object), as it also does when nothing is
returned. -/
def stepGuardRet (rec : Machine → Op → MRes) (m : Machine) (path : List String)
    (cmd : Cmd) (fk tk : String) : Ret → MRes
  | .rtrue => rec m (.proceed path cmd)
  | .rpart u e =>
    ok (addPending (wireGuard m path cmd.target.name fk tk
        (fun h => { h with update := u, exit := e })) { path := path, cmd := cmd })
  | .rexit tags =>
    ok (addPending (wireGuard m path cmd.target.name fk tk
        (fun h => { h with exit := some tags })) { path := path, cmd := cmd })
  | .rnothing => ok (addPending m { path := path, cmd := cmd })

/-- `execGuard` (source lines 345-397).  The `from` label computed for
the `Guard` object (source lines 351-353) is informational only and is
not modelled. -/
def stepExecGuard (rec : Machine → Op → MRes) (m : Machine) (path : List String)
    (cmd : Cmd) : MRes :=
  match getA m.ctxs path with
  | Option.none => fail m .typeError
  | some c =>
    match guardSelect ((getA c.guardOf cmd.target.name).getD []) cmd.fromState cmd.toState with
    | Option.none => fail m .typeError
    | some (fk, tk, handler) =>
      seqR (stepGuardEnter rec (setMS m path .enter) path cmd handler.enter) (fun m2 =>
        stepGuardRet rec (setMS m2 path .none) path cmd fk tk (guardRetOf handler.enter))

/-- `execState` (source lines 399-412): consistency check against the
live current state, then guard path or transition path. -/
def stepExecState (rec : Machine → Op → MRes) (m : Machine) (path : List String)
    (cmd : Cmd) : MRes :=
  match getA m.ctxs path with
  | Option.none => fail m .typeError
  | some c =>
    if (getA c.stateOf cmd.target.name).getD Option.none ≠ cmd.fromState then
      fail m .stateInconsistency
    else if isGuarded c cmd.target.name cmd.fromState cmd.toState then
      rec m (.execGuard path cmd)
    else rec m (.execTransition path cmd)

/-- `run` (source lines 414-421): execute the front command, shift it
off only after the execution fully returns, repeat while non-empty. -/
def stepRunQ (rec : Machine → Op → MRes) (m : Machine) (path : List String)
    (name : String) : MRes :=
  match getA m.ctxs path with
  | Option.none => fail m .typeError
  | some c =>
    match (getA c.queueOf name).getD [] with
    | [] => ok m
    | cmd :: _ =>
      seqR (rec m (.execState path cmd)) (fun m1 =>
        rec (shiftQ m1 path name) (.runQ path name))

/-- The tail of `schedule` after validation (source lines 433-443):
write the coalesced queue, then drain immediately when this request is
the only entry and the owning context is not inside an update tick. -/
def stepScheduleQ (rec : Machine → Op → MRes) (m : Machine) (path : List String)
    (ms : MachineState) (t : Node) (q1 : List Cmd) : MRes :=
  if q1.length = 1 ∧ ms ≠ MachineState.update then
    rec (setQ m path t.name q1) (.runQ path t.name)
  else ok (setQ m path t.name q1)

/-- `schedule` (source lines 423-444).  A null target throws in the
source (the template literal itself dereferences `target.name`);
either way the call fails before touching any queue. -/
def stepSchedule (rec : Machine → Op → MRes) (m : Machine) (path : List String)
    (sourceName : String) (target : Option Node) (fromS : Option String) (toS : String) : MRes :=
  match target with
  | Option.none => fail m .unknownChild
  | some t =>
    if !t.hasState toS then fail m .unknownState
    else
      match getA m.ctxs path with
      | Option.none => fail m .typeError
      | some c =>
        match getA c.queueOf t.name with
        | Option.none => fail m .typeError
        | some q =>
          stepScheduleQ rec m path c.machineState t
            (scheduleQueue q { sourceName := sourceName, target := t, fromState := fromS, toState := toS })

/-- `tell` (source lines 446-453): aimed at a child of this context,
sourced from this node. -/
def stepTell (rec : Machine → Op → MRes) (m : Machine) (path : List String)
    (name state : String) : MRes :=
  match getA m.ctxs path with
  | Option.none => fail m .typeError
  | some c =>
    rec m (.schedule path c.node.name (getA c.nodeOf name)
      ((getA c.stateOf name).getD Option.none) state)

/-- `ask` (source lines 455-462): aimed at a child of the parent
context.  At the root, `this.parent` is null and the property access
throws. -/
def stepAsk (rec : Machine → Op → MRes) (m : Machine) (path : List String)
    (name state : String) : MRes :=
  if path = [] then fail m .typeError
  else
    match getA m.ctxs path, getA m.ctxs path.dropLast with
    | some c, some p =>
      rec m (.schedule path.dropLast c.node.name (getA p.nodeOf name)
        ((getA p.stateOf name).getD Option.none) state)
    | _, _ => fail m .typeError

/-- `set` (source lines 464-471): forwards to the parent with this
node itself as the target (no map lookup for the target node). -/
def stepSet (rec : Machine → Op → MRes) (m : Machine) (path : List String)
    (state : String) : MRes :=
  if path = [] then fail m .typeError
  else
    match getA m.ctxs path, getA m.ctxs path.dropLast with
    | some c, some p =>
      rec m (.schedule path.dropLast c.node.name (some c.node)
        ((getA p.stateOf c.node.name).getD Option.none) state)
    | _, _ => fail m .typeError

/-- One action of a state handler body, executed against the context
the handler received. -/
def stepActs (rec : Machine → Op → MRes) (m : Machine) (selfPath : List String) :
    List Act → MRes
  | [] => ok m
  | a :: rest =>
    seqR (match a with
      | .tell n s => rec m (.tell selfPath n s)
      | .ask n s => rec m (.ask selfPath n s)
      | .set s => rec m (.setOp selfPath s)
      | .log t => ok (pushLog m [t])
      | .proceed => ok m) (fun m1 => rec m1 (.acts selfPath rest))

/-- One action of a guard enter callback body: it receives only the
`Guard` capability, so `proceed` invokes the captured closure and
`log` records; the context-directed actions have no context in scope
in the modelled program space and do nothing. -/
def stepGuardActs (rec : Machine → Op → MRes) (m : Machine) (path : List String)
    (cmd : Cmd) : List Act → MRes
  | [] => ok m
  | a :: rest =>
    seqR (match a with
      | .proceed => rec m (.proceed path cmd)
      | .log t => ok (pushLog m [t])
      | _ => ok m) (fun m1 => rec m1 (.guardActs path cmd rest))

/-- The post-update drain (source lines 591-593): if the update
callback left entries in the parent's queue for this node, run it. -/
def stepUpdateDrain (rec : Machine → Op → MRes) (m : Machine) (path : List String)
    (selfName : String) : MRes :=
  match getA m.ctxs path.dropLast with
  | Option.none => fail m .typeError
  | some p1 =>
    if ((getA p1.queueOf selfName).getD []).length > 0 then
      rec m (.runQ path.dropLast selfName)
    else ok m

/-- The self part of `update` (source lines 576-593): nothing at the
root; otherwise look up this node's current-state handler in the
parent, run its update callback under the UPDATE flag, then drain. -/
def stepUpdateSelf (rec : Machine → Op → MRes) (m : Machine) (path : List String)
    (selfName selfState : String) : MRes :=
  if path = [] then ok m
  else
    match getA m.ctxs path.dropLast with
    | Option.none => fail m .typeError
    | some p =>
      match getA ((getA p.handlerOf selfName).getD []) selfState with
      | Option.none => ok m
      | some h =>
        match h.update with
        | Option.none => ok m
        | some uacts =>
          seqR (rec (setMS m path .update) (.acts path uacts)) (fun m3 =>
            stepUpdateDrain rec (setMS m3 path .none) path selfName)

/-- `update` (source lines 568-594): children first (in `contextOf`
key order, skipping dead entries re-checked per iteration), then this
context's own update callback. -/
def stepUpdate (rec : Machine → Op → MRes) (m : Machine) (path : List String)
    (delta : Nat) : MRes :=
  match getA m.ctxs path with
  | Option.none => fail m .typeError
  | some c =>
    seqR (rec m (.updateKids path (c.liveOf.map Prod.fst) delta)) (fun m1 =>
      stepUpdateSelf rec m1 path c.node.name c.state)

/-- The child loop of `update`: `contextOf[name]` is re-read on the
current object at each iteration. -/
def stepUpdateKids (rec : Machine → Op → MRes) (m : Machine) (path : List String)
    (delta : Nat) : List String → MRes
  | [] => ok m
  | n :: rest =>
    seqR (match getA m.ctxs path with
      | Option.none => ok m
      | some c =>
        if (getA c.liveOf n).getD false then rec m (.updateCtx (path ++ [n]) delta)
        else ok m) (fun m1 => rec m1 (.updateKids path rest delta))

/-- The fuel-indexed interpreter tying the engine's recursion: every
internal call consumes one unit of fuel, so each branch body mirrors
one source procedure and recursion is well founded. -/
def step : Nat → Machine → Op → MRes
  | 0, m, _ => fail m .fuel
  | n + 1, m, op =>
    match op with
    | .schedule p sn t f ts => stepSchedule (step n) m p sn t f ts
    | .runQ p nm => stepRunQ (step n) m p nm
    | .execState p c => stepExecState (step n) m p c
    | .execTransition p c => stepExecTransition (step n) m p c
    | .execGuard p c => stepExecGuard (step n) m p c
    | .proceed p c => stepProceed (step n) m p c
    | .acts sp a => stepActs (step n) m sp a
    | .guardActs p c a => stepGuardActs (step n) m p c a
    | .updateCtx p d => stepUpdate (step n) m p d
    | .updateKids p ns d => stepUpdateKids (step n) m p d ns
    | .tell p nm s => stepTell (step n) m p nm s
    | .ask p nm s => stepAsk (step n) m p nm s
    | .setOp p s => stepSet (step n) m p s

/-- `when(name, state, handler)` (source lines 509-531): validate the
child and state, then store the handler record (last registration
wins). -/
def whenState (m : Machine) (path : List String) (name st : String) (h : HandlerV) : MRes :=
  match getA m.ctxs path with
  | Option.none => fail m .typeError
  | some c =>
    match getA c.nodeOf name with
    | Option.none => fail m .unknownChild
    | some t =>
      if !t.hasState st then fail m .unknownState
      else
        ok (modCtx m path (fun c0 =>
          { c0 with handlerOf :=
              (setA c0.handlerOf name (setA ((getA c0.handlerOf name).getD []) st h)) }))

/-- `when(name, {from: to}, handler)` (source lines 481-507): validate
the child and the literal transition (wildcard `from` is exempt), then
store under `guardOf[name][from][to]`. -/
def whenGuard (m : Machine) (path : List String) (name fromS toS : String) (h : HandlerV) : MRes :=
  match getA m.ctxs path with
  | Option.none => fail m .typeError
  | some c =>
    match getA c.nodeOf name with
    | Option.none => fail m .unknownChild
    | some t =>
      if !t.hasTransition fromS toS && fromS != "*" then fail m .invalidTransition
      else
        ok (modCtx m path (fun c0 =>
          { c0 with guardOf :=
              (setA c0.guardOf name (setA ((getA c0.guardOf name).getD [])
                fromS (setA ((getA (getA c0.guardOf name |>.getD []) fromS).getD []) toS h))) }))

/-- `HSM.create(...nodes)` (source lines 618-630): wrap the nodes in a
sentinel root node (state "*", the constructor default) and build its
context with the default configuration. -/
def createHSM (nodes : List Node) : Except Err Machine := do
  let sentinel ← mkNode "__sentinel__" [] (nodes.map ChildSpec.plain)
  .ok { ctxs := [([], mkCtxData sentinel "*")]
        config := { debug := false, requireHandler := false }
        pendings := []
        log := [] }

/-- `configure` (source lines 596-605 and 632-640): the config object
is shared by reference from the root through every context, so it is
modelled as the single machine-level value. -/
def configure (m : Machine) (cfg : Config) : Machine :=
  { m with config := cfg }

def emptyMachine : Machine :=
  { ctxs := [], config := { debug := false, requireHandler := false }, pendings := [], log := [] }

/-- Unwrap a successful construction (all concrete scenario trees
below construct successfully). -/
def initHSM (nodes : List Node) : Machine :=
  match createHSM nodes with
  | .ok m => m
  | .error _ => emptyMachine

def nodeOrDefault (e : Except Err Node) : Node :=
  match e with
  | .ok n => n
  | .error _ => Node.mk "" [] [] []

def exceptOk (e : Except Err Node) : Bool :=
  match e with
  | .ok _ => true
  | .error _ => false

/-- Invoke the `proceed` closure of a guard a caller kept. -/
def proceedPending (fuel : Nat) (m : Machine) (i : Nat) : MRes :=
  match m.pendings.get? i with
  | Option.none => fail m .typeError
  | some pg => step fuel m (.proceed pg.path pg.cmd)

/-- The `stateOf` entry for a child (null both before first entry and
when the context does not exist). -/
def stateAt (m : Machine) (path : List String) (name : String) : Option String :=
  match getA m.ctxs path with
  | Option.none => Option.none
  | some c => (getA c.stateOf name).getD Option.none

/-- Whether `contextOf[name]` holds a live child context. -/
def liveAt (m : Machine) (path : List String) (name : String) : Bool :=
  match getA m.ctxs path with
  | Option.none => false
  | some c => (getA c.liveOf name).getD false

/-- The pending transition queue for a child. -/
def queueAt (m : Machine) (path : List String) (name : String) : List Cmd :=
  match getA m.ctxs path with
  | Option.none => []
  | some c => (getA c.queueOf name).getD []

/-- Every pending queue of every context record holds at most two
entries. -/
def ctxQB (c : CtxData) : Bool :=
  c.queueOf.all (fun nq => decide (nq.2.length ≤ 2))

def boundedB (m : Machine) : Bool :=
  m.ctxs.all (fun pc => ctxQB pc.2)

/-! ### Concrete scenario machines used by the claim theorems -/

/-- A three-state region used for the coalescing scenario. -/
def c1Light : Node := nodeOrDefault (mkNode "L" ["a", "b", "c"] [])

/-- Coalescing scenario: the enter handler of state `a` issues two
further requests on its own region (via `set`, i.e. two more
schedules on the same queue) while the first transition is still
executing its enter callback. -/
def c1Run : MRes :=
  seqR (whenState (initHSM [c1Light]) [] "L" "a"
      { enter := some { acts := [.log "e:a", .set "b", .set "c"], ret := .rnothing },
        update := Option.none, exit := Option.none }) (fun m =>
  seqR (whenState m [] "L" "b"
      { enter := some { acts := [.log "e:b"], ret := .rnothing },
        update := Option.none, exit := Option.none }) (fun m =>
  seqR (whenState m [] "L" "c"
      { enter := some { acts := [.log "e:c"], ret := .rnothing },
        update := Option.none, exit := Option.none }) (fun m =>
  step 40 m (.tell [] "L" "a"))))

/-- A command placeholder used to instantiate universally quantified
queue lemmas. -/
def dummyCmd : Cmd :=
  { sourceName := "w", target := c1Light, fromState := Option.none, toState := "a" }

def dummyCmd2 : Cmd :=
  { sourceName := "w", target := c1Light, fromState := Option.none, toState := "b" }

/-- Region with one child used for the update-deferral scenario. -/
def c2G : Node := nodeOrDefault (mkNode "G" ["g1"] [])

def c2L : Node := nodeOrDefault (mkNode "L" ["on"] [.plain c2G])

/-- Update scenario: `L`'s state `on` has an update callback that
issues `tell("G","g1")` on its own context mid-tick. -/
def c2Run : MRes :=
  seqR (whenState (initHSM [c2L]) [] "L" "on"
      { enter := some { acts := [], ret := .rnothing },
        update := some [.log "u:L", .tell "G" "g1"], exit := Option.none }) (fun m =>
  seqR (step 40 m (.tell [] "L" "on")) (fun m =>
  step 40 m (.updateCtx [] 1)))

/-- Region for the failed-transition atomicity scenario. -/
def c3L : Node := nodeOrDefault (mkNode "L" ["r", "g"] [])

/-- Strict machine entered at `r` whose handler has an exit callback;
no handler is registered for `g`. -/
def c3Pre : MRes :=
  seqR (ok (configure (initHSM [c3L]) { debug := false, requireHandler := true })) (fun m =>
  seqR (whenState m [] "L" "r"
      { enter := some { acts := [], ret := .rnothing },
        update := Option.none, exit := some ["x:r"] }) (fun m =>
  step 40 m (.tell [] "L" "r")))

def c3Run : MRes :=
  seqR c3Pre (fun m => step 40 m (.tell [] "L" "g"))

/-- The sentinel node of the `c3L` machine, for instantiating the
general missing-handler lemma. -/
def c3Sentinel : Node := nodeOrDefault (mkNode "__sentinel__" [] [.plain c3L])

def c3Cmd : Cmd :=
  { sourceName := "__sentinel__", target := c3L, fromState := Option.none, toState := "g" }

/-- Region for the missing-handler behaviour of C4. -/
def c4L : Node := nodeOrDefault (mkNode "L" ["r", "g"] [])

/-- Strict mode, no handler for `g`. -/
def c4RunStrict : MRes :=
  step 40 (configure (initHSM [c4L]) { debug := false, requireHandler := true })
    (.tell [] "L" "g")

/-- Default (non-strict) mode, no handler for `g`. -/
def c4RunLoose : MRes :=
  step 40 (initHSM [c4L]) (.tell [] "L" "g")

/-- `registerGuard`: the guard-map update performed by `when` for a
transition key (create the `from` map if absent, then set `to`). -/
def regGuard (g : List (String × List (String × HandlerV))) (fromS toS : String)
    (h : HandlerV) : List (String × List (String × HandlerV)) :=
  setA g fromS (setA ((getA g fromS).getD []) toS h)

/-- A guard map holding any combination of the four keys
`(a,b)`, `(a,*)`, `(*,b)`, `(*,*)`, registered in that order. -/
def guardCombo (a b : String) (b1 b2 b3 b4 : Bool) (h1 h2 h3 h4 : HandlerV) :
    List (String × List (String × HandlerV)) :=
  (if b4 then (fun g => regGuard g "*" "*" h4) else id)
    ((if b3 then (fun g => regGuard g "*" b h3) else id)
      ((if b2 then (fun g => regGuard g a "*" h2) else id)
        ((if b1 then (fun g => regGuard g a b h1) else id) [])))

def c5L : Node := nodeOrDefault (mkNode "L" ["a", "b"] [])

/-- Guard-precedence scenario: all four guards registered with
distinguishable logs, each proceeding immediately; request `a → b`. -/
def c5Run : MRes :=
  seqR (whenState (initHSM [c5L]) [] "L" "a"
      { enter := some { acts := [.log "s:a"], ret := .rnothing },
        update := Option.none, exit := Option.none }) (fun m =>
  seqR (whenState m [] "L" "b"
      { enter := some { acts := [.log "s:b"], ret := .rnothing },
        update := Option.none, exit := Option.none }) (fun m =>
  seqR (whenGuard m [] "L" "a" "b"
      { enter := some { acts := [.log "g:ab"], ret := .rtrue },
        update := Option.none, exit := Option.none }) (fun m =>
  seqR (whenGuard m [] "L" "a" "*"
      { enter := some { acts := [.log "g:aw"], ret := .rtrue },
        update := Option.none, exit := Option.none }) (fun m =>
  seqR (whenGuard m [] "L" "*" "b"
      { enter := some { acts := [.log "g:wb"], ret := .rtrue },
        update := Option.none, exit := Option.none }) (fun m =>
  seqR (whenGuard m [] "L" "*" "*"
      { enter := some { acts := [.log "g:ww"], ret := .rtrue },
        update := Option.none, exit := Option.none }) (fun m =>
  seqR (step 40 m (.tell [] "L" "a")) (fun m =>
  step 40 m (.tell [] "L" "b"))))))))

def c6A : Node := nodeOrDefault (mkNode "A" ["x"] [])

/-- One unrestricted child named `A` and one child named `A` restricted
to state `s`: both are visible while the parent is in `s`. -/
def c6Mixed : Except Err Node :=
  mkNode "P" ["s"] [.plain c6A, .restrict ["s"] [c6A]]

def c6MixedNode : Node := nodeOrDefault c6Mixed

def c7G : Node := nodeOrDefault (mkNode "G" ["g1"] [])

def c7L : Node := nodeOrDefault (mkNode "L" ["on", "off"] [.plain c7G])

/-- Nested-teardown scenario, stopped just before the parent-level
transition: `L` live at `on` (with an exit callback), its child `G`
live at `g1` with an exit callback of its own. -/
def c7Pre : MRes :=
  seqR (whenState (initHSM [c7L]) [] "L" "on"
      { enter := some { acts := [], ret := .rnothing },
        update := Option.none, exit := some ["x:L"] }) (fun m =>
  seqR (whenState m [] "L" "off"
      { enter := some { acts := [], ret := .rnothing },
        update := Option.none, exit := Option.none }) (fun m =>
  seqR (step 40 m (.tell [] "L" "on")) (fun m =>
  seqR (whenState m ["L"] "G" "g1"
      { enter := some { acts := [], ret := .rnothing },
        update := Option.none, exit := some ["x:G"] }) (fun m =>
  step 40 m (.tell ["L"] "G" "g1")))))

def c7Run : MRes :=
  seqR c7Pre (fun m => step 40 m (.tell [] "L" "off"))

def c8L : Node := nodeOrDefault (mkNode "L" ["r", "g"] [])

/-- Pending-guard scenario: a guard on `(r,g)` whose enter callback
logs and returns nothing, with an exit hook; `tell(L,g)` leaves the
guard pending. -/
def c8Pre : MRes :=
  seqR (whenState (initHSM [c8L]) [] "L" "r"
      { enter := some { acts := [.log "e:r"], ret := .rnothing },
        update := Option.none, exit := Option.none }) (fun m =>
  seqR (whenState m [] "L" "g"
      { enter := some { acts := [.log "e:g"], ret := .rnothing },
        update := Option.none, exit := Option.none }) (fun m =>
  seqR (whenGuard m [] "L" "r" "g"
      { enter := some { acts := [.log "g:in"], ret := .rnothing },
        update := Option.none, exit := some ["g:out"] }) (fun m =>
  seqR (step 40 m (.tell [] "L" "r")) (fun m =>
  step 40 m (.tell [] "L" "g")))))

/-- The stored guard's `proceed()` invoked later. -/
def c8Run : MRes :=
  seqR c8Pre (fun m => proceedPending 40 m 0)

def c10L : Node := nodeOrDefault (mkNode "L" ["r"] [])

/-- Wildcard-destination scenario with a handler registered for the
literal state "*". -/
def c10Commit : MRes :=
  seqR (whenState (initHSM [c10L]) [] "L" "*"
      { enter := some { acts := [.log "e:w"], ret := .rnothing },
        update := Option.none, exit := Option.none }) (fun m =>
  step 40 m (.tell [] "L" "*"))

/-- Wildcard destination in strict mode with no handler registered. -/
def c10Strict : MRes :=
  step 40 (configure (initHSM [c10L]) { debug := false, requireHandler := true })
    (.tell [] "L" "*")

/-- Strict-mode machine used to instantiate the missing-handler
atomicity lemma. -/
def c3W : Machine := configure (initHSM [c3L]) { debug := false, requireHandler := true }

/-- The root context record of `c3W`. -/
def c3WCtx : CtxData := mkCtxData c3Sentinel "*"

/-- An inert handler record used to instantiate guard-map lemmas. -/
def wHandler : HandlerV :=
  { enter := Option.none, update := Option.none, exit := Option.none }

/-! ### Association list and boundedness lemmas -/

theorem getA_setA {κ α : Type} [DecidableEq κ] (xs : List (κ × α)) (k k2 : κ) (v : α) :
    getA (setA xs k v) k2 = if k2 = k then some v else getA xs k2 := by
  induction xs with
  | nil =>
    by_cases h : k2 = k <;> simp [setA, getA, h]
  | cons hd t ih =>
    obtain ⟨k0, v0⟩ := hd
    by_cases h0 : k = k0
    · subst h0
      by_cases h2 : k2 = k <;> simp [setA, getA, h2]
    · by_cases h2 : k2 = k0
      · subst h2
        simp [setA, getA, h0, Ne.symm h0]
      · simp [setA, getA, h0, h2, ih]

theorem all_getA {κ α : Type} [DecidableEq κ] {P : κ × α → Bool} {k : κ} {v : α} :
    ∀ {xs : List (κ × α)}, xs.all P = true → getA xs k = some v → P (k, v) = true := by
  intro xs
  induction xs with
  | nil => intro _ hg; simp [getA] at hg
  | cons hd t ih =>
    intro ha hg
    obtain ⟨k0, v0⟩ := hd
    simp only [List.all_cons, Bool.and_eq_true] at ha
    unfold getA at hg
    split at hg
    · rename_i heq
      injection hg with hv
      subst heq
      subst hv
      exact ha.1
    · exact ih ha.2 hg

theorem all_setA {κ α : Type} [DecidableEq κ] {P : κ × α → Bool} {k : κ} {v : α} :
    ∀ {xs : List (κ × α)}, xs.all P = true → P (k, v) = true → (setA xs k v).all P = true := by
  intro xs
  induction xs with
  | nil => intro _ hp; simp [setA, List.all_cons, hp]
  | cons hd t ih =>
    intro ha hp
    obtain ⟨k0, v0⟩ := hd
    simp only [List.all_cons, Bool.and_eq_true] at ha
    unfold setA
    split
    · rename_i heq
      subst heq
      simp only [List.all_cons, Bool.and_eq_true]
      exact ⟨hp, ha.2⟩
    · simp only [List.all_cons, Bool.and_eq_true]
      exact ⟨ha.1, ih ha.2 hp⟩

theorem boundedB_modCtx {m : Machine} {path : List String} {f : CtxData → CtxData}
    (hf : ∀ c, ctxQB c = true → ctxQB (f c) = true) (hm : boundedB m = true) :
    boundedB (modCtx m path f) = true := by
  unfold modCtx
  cases hc : getA m.ctxs path with
  | none => exact hm
  | some c => exact all_setA hm (hf c (all_getA hm hc))

theorem boundedB_setMS {m : Machine} {path : List String} {ms : MachineState}
    (hm : boundedB m = true) : boundedB (setMS m path ms) = true :=
  boundedB_modCtx (fun _ hc => hc) hm

theorem boundedB_setLive {m : Machine} {path : List String} {name : String} {b : Bool}
    (hm : boundedB m = true) : boundedB (setLive m path name b) = true :=
  boundedB_modCtx (fun _ hc => hc) hm

theorem boundedB_setSt {m : Machine} {path : List String} {name : String} {v : Option String}
    (hm : boundedB m = true) : boundedB (setSt m path name v) = true :=
  boundedB_modCtx (fun _ hc => hc) hm

theorem boundedB_setQ {m : Machine} {path : List String} {name : String} {q : List Cmd}
    (hq : q.length ≤ 2) (hm : boundedB m = true) : boundedB (setQ m path name q) = true :=
  boundedB_modCtx (fun _ hc => all_setA hc (decide_eq_true hq)) hm

theorem boundedB_shiftQ {m : Machine} {path : List String} {name : String}
    (hm : boundedB m = true) : boundedB (shiftQ m path name) = true := by
  apply boundedB_modCtx _ hm
  intro c hc
  apply all_setA hc
  cases hq : getA c.queueOf name with
  | none => simp
  | some q0 =>
    have h1 := all_getA hc hq
    simp only [decide_eq_true_eq] at h1 ⊢
    simp only [hq, Option.getD_some, List.length_tail]
    omega

theorem ctxQB_mkCtxData (node : Node) (st : String) : ctxQB (mkCtxData node st) = true := by
  unfold ctxQB mkCtxData
  simp [List.all_map, Function.comp, List.all_eq_true]

theorem boundedB_newChild {m : Machine} {path : List String} {node : Node} {st : String}
    (hm : boundedB m = true) : boundedB (newChild m path node st) = true :=
  all_setA hm (ctxQB_mkCtxData node st)

theorem boundedB_wireState {m : Machine} {path : List String} {name st : String}
    {f : HandlerV → HandlerV} (hm : boundedB m = true) :
    boundedB (wireState m path name st f) = true := by
  unfold wireState
  apply boundedB_modCtx _ hm
  intro c hc
  split
  · exact hc
  · exact hc

theorem boundedB_wireGuard {m : Machine} {path : List String} {name fk tk : String}
    {f : HandlerV → HandlerV} (hm : boundedB m = true) :
    boundedB (wireGuard m path name fk tk f) = true := by
  unfold wireGuard
  apply boundedB_modCtx _ hm
  intro c hc
  split
  · exact hc
  · split
    · exact hc
    · exact hc

theorem boundedB_exitHalf {m : Machine} {path : List String} {hs : List (String × HandlerV)}
    {fromS : Option String} {tname : String} (hm : boundedB m = true) :
    boundedB (exitHalf m path hs fromS tname) = true := by
  unfold exitHalf
  split
  · exact hm
  · split
    · exact hm
    · split
      · exact hm
      · exact boundedB_setMS (boundedB_setLive (boundedB_setMS hm))

theorem boundedB_enterCommit {m : Machine} {path : List String} {target : Node} {st : String}
    (hm : boundedB m = true) : boundedB (enterCommit m path target st) = true :=
  boundedB_setSt (boundedB_setLive (boundedB_newChild (boundedB_setMS hm)))

theorem boundedB_wireFromRet {m : Machine} {path : List String} {tname toS : String} {r : Ret}
    (hm : boundedB m = true) : boundedB (wireFromRet m path tname toS r) = true := by
  cases r with
  | rnothing => exact hm
  | rtrue => exact hm
  | rexit tags => exact boundedB_wireState hm
  | rpart u e => exact boundedB_wireState hm

theorem boundedB_guardExitHalf {m : Machine} {path : List String} {ex : Option (List String)}
    (hm : boundedB m = true) : boundedB (guardExitHalf m path ex) = true := by
  cases ex with
  | none => exact hm
  | some tags => exact boundedB_setMS (boundedB_setMS hm)

theorem seqR_bounded {r : MRes} {k : Machine → MRes}
    (h1 : boundedB r.1 = true) (h2 : ∀ m1, boundedB m1 = true → boundedB (k m1).1 = true) :
    boundedB (seqR r k).1 = true := by
  obtain ⟨m, e⟩ := r
  cases e with
  | none => exact h2 m h1
  | some e0 => exact h1

theorem scheduleQueue_len {q : List Cmd} (c : Cmd) (h : q.length ≤ 2) :
    (scheduleQueue q c).length ≤ 2 := by
  unfold scheduleQueue
  split
  · rename_i h1
    simp only [List.length_append, List.length_cons, List.length_nil]
    omega
  · split
    · simp only [List.length_set]
      omega
    · exact h

theorem bounded_queue {m : Machine} {path : List String} {c : CtxData} {name : String}
    {q : List Cmd} (hm : boundedB m = true) (hc : getA m.ctxs path = some c)
    (hq : getA c.queueOf name = some q) : q.length ≤ 2 := by
  have h2 := all_getA (all_getA hm hc) hq
  simpa using h2

/-! ### Queue-bound preservation through every engine procedure -/

theorem stepScheduleQ_bounded {rec : Machine → Op → MRes} {m : Machine} {path : List String}
    {ms : MachineState} {t : Node} {q1 : List Cmd}
    (hrec : ∀ m1 op, boundedB m1 = true → boundedB (rec m1 op).1 = true)
    (hm : boundedB m = true) (hq : q1.length ≤ 2) :
    boundedB (stepScheduleQ rec m path ms t q1).1 = true := by
  unfold stepScheduleQ
  split
  · exact hrec _ _ (boundedB_setQ hq hm)
  · exact boundedB_setQ hq hm

theorem stepSchedule_bounded {rec : Machine → Op → MRes} {m : Machine} {path : List String}
    {sn : String} {target : Option Node} {fromS : Option String} {toS : String}
    (hrec : ∀ m1 op, boundedB m1 = true → boundedB (rec m1 op).1 = true)
    (hm : boundedB m = true) :
    boundedB (stepSchedule rec m path sn target fromS toS).1 = true := by
  unfold stepSchedule
  cases target with
  | none => exact hm
  | some t =>
    cases hc : getA m.ctxs path with
    | none =>
      dsimp only
      split <;> exact hm
    | some c =>
      dsimp only
      split
      · exact hm
      · cases hq : getA c.queueOf t.name with
        | none => exact hm
        | some q =>
          exact stepScheduleQ_bounded hrec hm (scheduleQueue_len _ (bounded_queue hm hc hq))

theorem stepRunQ_bounded {rec : Machine → Op → MRes} {m : Machine} {path : List String}
    {name : String} (hrec : ∀ m1 op, boundedB m1 = true → boundedB (rec m1 op).1 = true)
    (hm : boundedB m = true) : boundedB (stepRunQ rec m path name).1 = true := by
  unfold stepRunQ
  split
  · exact hm
  · split
    · exact hm
    · apply seqR_bounded (hrec _ _ hm)
      intro m1 h1
      exact hrec _ _ (boundedB_shiftQ h1)

theorem stepExecState_bounded {rec : Machine → Op → MRes} {m : Machine} {path : List String}
    {cmd : Cmd} (hrec : ∀ m1 op, boundedB m1 = true → boundedB (rec m1 op).1 = true)
    (hm : boundedB m = true) : boundedB (stepExecState rec m path cmd).1 = true := by
  unfold stepExecState
  split
  · exact hm
  · split
    · exact hm
    · split
      · exact hrec _ _ hm
      · exact hrec _ _ hm

theorem stepEnterHalf_bounded {rec : Machine → Op → MRes} {m : Machine} {path : List String}
    {cmd : Cmd} {nh : Option HandlerV}
    (hrec : ∀ m1 op, boundedB m1 = true → boundedB (rec m1 op).1 = true)
    (hm : boundedB m = true) : boundedB (stepEnterHalf rec m path cmd nh).1 = true := by
  unfold stepEnterHalf
  split
  · split
    · exact hm
    · exact boundedB_enterCommit hm
  · split
    · exact boundedB_setMS (boundedB_enterCommit hm)
    · apply seqR_bounded (hrec _ _ (boundedB_enterCommit hm))
      intro m1 h1
      exact boundedB_wireFromRet (boundedB_setMS h1)

theorem stepExecTransition_bounded {rec : Machine → Op → MRes} {m : Machine}
    {path : List String} {cmd : Cmd}
    (hrec : ∀ m1 op, boundedB m1 = true → boundedB (rec m1 op).1 = true)
    (hm : boundedB m = true) : boundedB (stepExecTransition rec m path cmd).1 = true := by
  unfold stepExecTransition
  split
  · exact hm
  · exact stepEnterHalf_bounded hrec (boundedB_exitHalf hm)

theorem stepProceedQ_bounded {rec : Machine → Op → MRes} {m : Machine} {path : List String}
    {cmd : Cmd} (hrec : ∀ m1 op, boundedB m1 = true → boundedB (rec m1 op).1 = true)
    (hm : boundedB m = true) : boundedB (stepProceedQ rec m path cmd).1 = true := by
  unfold stepProceedQ
  cases hc : getA m.ctxs path with
  | none => exact hm
  | some c1 =>
    dsimp only
    split
    · exact hrec _ _ hm
    · rename_i hlen
      have h0 : ((((getA c1.queueOf cmd.target.name).getD []) ++ [cmd]).length) ≤ 2 := by
        simp only [gt_iff_lt, not_lt] at hlen
        simp only [List.length_append, List.length_cons, List.length_nil]
        omega
      apply seqR_bounded (hrec _ _ (boundedB_setQ h0 hm))
      intro m1 h1
      exact hrec _ _ (boundedB_shiftQ h1)

theorem stepProceed_bounded {rec : Machine → Op → MRes} {m : Machine} {path : List String}
    {cmd : Cmd} (hrec : ∀ m1 op, boundedB m1 = true → boundedB (rec m1 op).1 = true)
    (hm : boundedB m = true) : boundedB (stepProceed rec m path cmd).1 = true := by
  unfold stepProceed
  split
  · exact hm
  · split
    · exact hm
    · exact stepProceedQ_bounded hrec (boundedB_guardExitHalf hm)

theorem stepGuardEnter_bounded {rec : Machine → Op → MRes} {m : Machine} {path : List String}
    {cmd : Cmd} {e : Option Prog}
    (hrec : ∀ m1 op, boundedB m1 = true → boundedB (rec m1 op).1 = true)
    (hm : boundedB m = true) : boundedB (stepGuardEnter rec m path cmd e).1 = true := by
  unfold stepGuardEnter
  split
  · exact hrec _ _ hm
  · exact hm

theorem stepGuardRet_bounded {rec : Machine → Op → MRes} {m : Machine} {path : List String}
    {cmd : Cmd} {fk tk : String} {r : Ret}
    (hrec : ∀ m1 op, boundedB m1 = true → boundedB (rec m1 op).1 = true)
    (hm : boundedB m = true) : boundedB (stepGuardRet rec m path cmd fk tk r).1 = true := by
  unfold stepGuardRet
  split
  · exact hrec _ _ hm
  · exact boundedB_wireGuard hm
  · exact boundedB_wireGuard hm
  · exact hm

theorem stepExecGuard_bounded {rec : Machine → Op → MRes} {m : Machine} {path : List String}
    {cmd : Cmd} (hrec : ∀ m1 op, boundedB m1 = true → boundedB (rec m1 op).1 = true)
    (hm : boundedB m = true) : boundedB (stepExecGuard rec m path cmd).1 = true := by
  unfold stepExecGuard
  split
  · exact hm
  · split
    · exact hm
    · apply seqR_bounded (stepGuardEnter_bounded hrec (boundedB_setMS hm))
      intro m1 h1
      exact stepGuardRet_bounded hrec (boundedB_setMS h1)

theorem stepActs_bounded {rec : Machine → Op → MRes} {m : Machine} {selfPath : List String}
    {as : List Act} (hrec : ∀ m1 op, boundedB m1 = true → boundedB (rec m1 op).1 = true)
    (hm : boundedB m = true) : boundedB (stepActs rec m selfPath as).1 = true := by
  unfold stepActs
  split
  · exact hm
  · apply seqR_bounded _ (fun m1 h1 => hrec _ _ h1)
    split
    · exact hrec _ _ hm
    · exact hrec _ _ hm
    · exact hrec _ _ hm
    · exact hm
    · exact hm

theorem stepGuardActs_bounded {rec : Machine → Op → MRes} {m : Machine} {path : List String}
    {cmd : Cmd} {as : List Act}
    (hrec : ∀ m1 op, boundedB m1 = true → boundedB (rec m1 op).1 = true)
    (hm : boundedB m = true) : boundedB (stepGuardActs rec m path cmd as).1 = true := by
  unfold stepGuardActs
  split
  · exact hm
  · apply seqR_bounded _ (fun m1 h1 => hrec _ _ h1)
    split
    · exact hrec _ _ hm
    · exact hm
    · exact hm

theorem stepUpdateDrain_bounded {rec : Machine → Op → MRes} {m : Machine} {path : List String}
    {selfName : String} (hrec : ∀ m1 op, boundedB m1 = true → boundedB (rec m1 op).1 = true)
    (hm : boundedB m = true) : boundedB (stepUpdateDrain rec m path selfName).1 = true := by
  unfold stepUpdateDrain
  split
  · exact hm
  · split
    · exact hrec _ _ hm
    · exact hm

theorem stepUpdateSelf_bounded {rec : Machine → Op → MRes} {m : Machine} {path : List String}
    {selfName selfState : String}
    (hrec : ∀ m1 op, boundedB m1 = true → boundedB (rec m1 op).1 = true)
    (hm : boundedB m = true) : boundedB (stepUpdateSelf rec m path selfName selfState).1 = true := by
  unfold stepUpdateSelf
  split
  · exact hm
  · split
    · exact hm
    · split
      · exact hm
      · split
        · exact hm
        · apply seqR_bounded (hrec _ _ (boundedB_setMS hm))
          intro m1 h1
          exact stepUpdateDrain_bounded hrec (boundedB_setMS h1)

theorem stepUpdate_bounded {rec : Machine → Op → MRes} {m : Machine} {path : List String}
    {delta : Nat} (hrec : ∀ m1 op, boundedB m1 = true → boundedB (rec m1 op).1 = true)
    (hm : boundedB m = true) : boundedB (stepUpdate rec m path delta).1 = true := by
  unfold stepUpdate
  split
  · exact hm
  · apply seqR_bounded (hrec _ _ hm)
    intro m1 h1
    exact stepUpdateSelf_bounded hrec h1

theorem stepUpdateKids_bounded {rec : Machine → Op → MRes} {m : Machine} {path : List String}
    {delta : Nat} {names : List String}
    (hrec : ∀ m1 op, boundedB m1 = true → boundedB (rec m1 op).1 = true)
    (hm : boundedB m = true) : boundedB (stepUpdateKids rec m path delta names).1 = true := by
  unfold stepUpdateKids
  split
  · exact hm
  · apply seqR_bounded _ (fun m1 h1 => hrec _ _ h1)
    split
    · exact hm
    · split
      · exact hrec _ _ hm
      · exact hm

theorem stepTell_bounded {rec : Machine → Op → MRes} {m : Machine} {path : List String}
    {name st : String} (hrec : ∀ m1 op, boundedB m1 = true → boundedB (rec m1 op).1 = true)
    (hm : boundedB m = true) : boundedB (stepTell rec m path name st).1 = true := by
  unfold stepTell
  split
  · exact hm
  · exact hrec _ _ hm

theorem stepAsk_bounded {rec : Machine → Op → MRes} {m : Machine} {path : List String}
    {name st : String} (hrec : ∀ m1 op, boundedB m1 = true → boundedB (rec m1 op).1 = true)
    (hm : boundedB m = true) : boundedB (stepAsk rec m path name st).1 = true := by
  unfold stepAsk
  split
  · exact hm
  · split
    · exact hrec _ _ hm
    · exact hm

theorem stepSet_bounded {rec : Machine → Op → MRes} {m : Machine} {path : List String}
    {st : String} (hrec : ∀ m1 op, boundedB m1 = true → boundedB (rec m1 op).1 = true)
    (hm : boundedB m = true) : boundedB (stepSet rec m path st).1 = true := by
  unfold stepSet
  split
  · exact hm
  · split
    · exact hrec _ _ hm
    · exact hm

/-- Every interpreter call preserves the two-entry queue bound on every
context record. -/
theorem step_bounded : ∀ (n : Nat) (m : Machine) (op : Op),
    boundedB m = true → boundedB (step n m op).1 = true := by
  intro n
  induction n with
  | zero => intro m op hm; exact hm
  | succ k ih =>
    intro m op hm
    cases op with
    | schedule p sn t f ts => exact stepSchedule_bounded ih hm
    | runQ p nm => exact stepRunQ_bounded ih hm
    | execState p c => exact stepExecState_bounded ih hm
    | execTransition p c => exact stepExecTransition_bounded ih hm
    | execGuard p c => exact stepExecGuard_bounded ih hm
    | proceed p c => exact stepProceed_bounded ih hm
    | acts sp a => exact stepActs_bounded ih hm
    | guardActs p c a => exact stepGuardActs_bounded ih hm
    | updateCtx p d => exact stepUpdate_bounded ih hm
    | updateKids p ns d => exact stepUpdateKids_bounded ih hm
    | tell p nm s => exact stepTell_bounded ih hm
    | ask p nm s => exact stepAsk_bounded ih hm
    | setOp p s => exact stepSet_bounded ih hm

/-- A freshly created machine has all (empty) queues within bound. -/
theorem createHSM_bounded (nodes : List Node) (m : Machine)
    (h : createHSM nodes = .ok m) : boundedB m = true := by
  unfold createHSM at h
  cases hmk : mkNode "__sentinel__" [] (nodes.map ChildSpec.plain) with
  | error e => rw [hmk] at h; simp [Bind.bind, Except.bind] at h
  | ok s =>
    rw [hmk] at h
    simp only [Bind.bind, Except.bind, Except.ok.injEq] at h
    subst h
    simp [boundedB, List.all_cons, ctxQB_mkCtxData]

/-! ### Observation-preservation lemmas for the failed-transition analysis -/

theorem stateAt_modCtx {m : Machine} {path : List String} {f : CtxData → CtxData}
    (hf : ∀ c, (f c).stateOf = c.stateOf) (p2 : List String) (n : String) :
    stateAt (modCtx m path f) p2 n = stateAt m p2 n := by
  unfold modCtx
  cases hc : getA m.ctxs path with
  | none => rfl
  | some c =>
    unfold stateAt
    dsimp only
    rw [getA_setA]
    by_cases h : p2 = path
    · subst h
      rw [if_pos rfl, hc]
      dsimp only
      rw [hf]
    · rw [if_neg h]

theorem stateAt_setMS (m : Machine) (path : List String) (ms : MachineState)
    (p2 : List String) (n : String) : stateAt (setMS m path ms) p2 n = stateAt m p2 n := by
  unfold setMS
  apply stateAt_modCtx
  intro c
  rfl

theorem stateAt_setLive (m : Machine) (path : List String) (name : String) (b : Bool)
    (p2 : List String) (n : String) : stateAt (setLive m path name b) p2 n = stateAt m p2 n := by
  unfold setLive
  apply stateAt_modCtx
  intro c
  rfl

theorem stateAt_pushLog (m : Machine) (tags : List String) (p2 : List String) (n : String) :
    stateAt (pushLog m tags) p2 n = stateAt m p2 n := rfl

theorem stateAt_exitHalf {m : Machine} {path : List String} {hs : List (String × HandlerV)}
    {fromS : Option String} {tname : String} (p2 : List String) (n : String) :
    stateAt (exitHalf m path hs fromS tname) p2 n = stateAt m p2 n := by
  unfold exitHalf
  split
  · rfl
  · split
    · rfl
    · split
      · rfl
      · rw [stateAt_setMS, stateAt_setLive, stateAt_pushLog, stateAt_setMS]

theorem config_modCtx (m : Machine) (path : List String) (f : CtxData → CtxData) :
    (modCtx m path f).config = m.config := by
  unfold modCtx
  cases getA m.ctxs path <;> rfl

theorem config_exitHalf {m : Machine} {path : List String} {hs : List (String × HandlerV)}
    {fromS : Option String} {tname : String} :
    (exitHalf m path hs fromS tname).config = m.config := by
  unfold exitHalf
  split
  · rfl
  · split
    · rfl
    · split
      · rfl
      · simp [setMS, setLive, pushLog, config_modCtx]

/-- A transition that fails its missing-handler check raises
`missingHandler` and leaves the target's current-state entry exactly as
it was; only the exit half (exit callback, live-context clearing) can
already have run. -/
theorem execTransition_missingHandler {n : Nat} {m : Machine} {path : List String}
    {cmd : Cmd} {c : CtxData} (h1 : getA m.ctxs path = some c)
    (h2 : getA ((getA c.handlerOf cmd.target.name).getD []) cmd.toState = Option.none)
    (h3 : m.config.requireHandler = true) :
    (step (n + 1) m (.execTransition path cmd)).2 = some .missingHandler ∧
    stateAt (step (n + 1) m (.execTransition path cmd)).1 path cmd.target.name =
      stateAt m path cmd.target.name := by
  show (stepExecTransition (step n) m path cmd).2 = some .missingHandler ∧
    stateAt (stepExecTransition (step n) m path cmd).1 path cmd.target.name =
      stateAt m path cmd.target.name
  unfold stepExecTransition
  rw [h1]
  dsimp only
  rw [h2]
  unfold stepEnterHalf
  rw [config_exitHalf, h3, if_pos rfl]
  exact ⟨rfl, stateAt_exitHalf path cmd.target.name⟩

/-! ### Node-constructor lemmas for the duplicate-child analysis -/

theorem getA_initChildMap_star (sts : List String) : getA (initChildMap sts) "*" = some [] := by
  induction sts with
  | nil => rfl
  | cons s t ih =>
    unfold initChildMap at ih ⊢
    simp only [List.map_cons, List.cons_append]
    unfold getA
    split
    · rfl
    · exact ih

theorem getA_initChildMap_mem {sts : List String} {s : String} (h : s ∈ sts) :
    getA (initChildMap sts) s = some [] := by
  induction sts with
  | nil => cases h
  | cons s0 t ih =>
    unfold initChildMap at ih ⊢
    simp only [List.map_cons, List.cons_append]
    unfold getA
    split
    · rfl
    · rename_i hne
      cases h with
      | head => exact absurd rfl hne
      | tail _ hmem => exact ih hmem

/-! ### Claim theorems -/

/-- C1: `schedule` appends a request to the target's pending queue when
the queue holds zero or one entries, and overwrites the second
(pending, not-yet-started) entry when it already holds two; hence three
requests on the same target issued while the first is still executing
its enter handler commit exactly two transitions — the first and the
last — and the middle one never runs (scenario `c1Run`: the enter
handler of `a` synchronously requests `b` then `c`; only `a` and `c`
are entered and the machine ends in `c`). -/
theorem C1_coalescing :
    (∀ (q : List Cmd) (c : Cmd),
      (q.length ≤ 1 → scheduleQueue q c = q ++ [c]) ∧
      (∀ a b, q = [a, b] → scheduleQueue q c = [a, c])) ∧
    c1Run.2 = Option.none ∧
    c1Run.1.log = ["e:a", "e:c"] ∧
    stateAt c1Run.1 [] "L" = some "c" := by
  refine ⟨?_, rfl, rfl, rfl⟩
  intro q c
  constructor
  · intro h
    unfold scheduleQueue
    rw [if_pos h]
  · intro a b hq
    subst hq
    unfold scheduleQueue
    simp [List.set]

/-- C1 witness: the queue clauses at concrete queues. -/
theorem C1_witness :
    scheduleQueue [] dummyCmd = [dummyCmd] ∧
    scheduleQueue [dummyCmd, dummyCmd] dummyCmd2 = [dummyCmd, dummyCmd2] :=
  ⟨(C1_coalescing.1 [] dummyCmd).1 (by decide),
   (C1_coalescing.1 [dummyCmd, dummyCmd] dummyCmd2).2 dummyCmd dummyCmd rfl⟩

/-- C2 counterexample: a `tell` issued from inside an update callback
does not take effect before the enclosing `update(delta)` call
completes — the update call returns without error, yet the child's
state is unchanged and the request is still sitting in the queue. -/
theorem C2_cex :
    c2Run.2 = Option.none ∧
    stateAt c2Run.1 ["L"] "G" = Option.none ∧
    (queueAt c2Run.1 ["L"] "G").length = 1 :=
  ⟨rfl, rfl, rfl⟩

/-- C2 (amended): a `tell` issued from inside the running context's
update callback is deferred by the `machineState` check (schedule does
not drain it mid-tick), but it is not drained before the enclosing
`update(delta)` returns either: the post-update drain covers only the
parent's queue for the updated node, so the deferred command remains
pending, recorded with its requested transition, when `update`
completes. -/
theorem C2_amended_deferred :
    c2Run.2 = Option.none ∧
    (queueAt c2Run.1 ["L"] "G").map (fun c => (c.fromState, c.toState)) =
      [(Option.none, "g1")] ∧
    stateAt c2Run.1 ["L"] "G" = Option.none ∧
    c2Run.1.log = ["u:L"] :=
  ⟨rfl, rfl, rfl, rfl⟩

/-- C3 counterexample: a `tell` that raises `MissingHandlerError`
(strict mode, no handler for the destination) still mutates the
live-child-context entry: the old state's exit callback has run and
`contextOf` has been cleared, so the entries are not the same as
immediately before the request. -/
theorem C3_cex :
    c3Pre.2 = Option.none ∧
    liveAt c3Pre.1 [] "L" = true ∧
    c3Run.2 = some .missingHandler ∧
    liveAt c3Run.1 [] "L" = false ∧
    stateAt c3Run.1 [] "L" = some "r" ∧
    c3Run.1.log = ["x:r"] :=
  ⟨rfl, rfl, rfl, rfl, rfl, rfl⟩

/-- C3 (amended): when a transition fails its missing-handler check
(strict mode, no handler registered for the destination state),
`execTransition` raises `missingHandler` and the target's
current-state entry is exactly what it was before the command; the
failure is not fully atomic, though — the exit half (old state's exit
callback and live-context clearing) may already have run, as the
counterexample shows. -/
theorem C3_atomicity {n : Nat} {m : Machine} {path : List String} {cmd : Cmd} {c : CtxData}
    (h1 : getA m.ctxs path = some c)
    (h2 : getA ((getA c.handlerOf cmd.target.name).getD []) cmd.toState = Option.none)
    (h3 : m.config.requireHandler = true) :
    (step (n + 1) m (.execTransition path cmd)).2 = some .missingHandler ∧
    stateAt (step (n + 1) m (.execTransition path cmd)).1 path cmd.target.name =
      stateAt m path cmd.target.name :=
  execTransition_missingHandler h1 h2 h3

/-- C3 witness: the strict `c3W` machine at the concrete command. -/
theorem C3_witness :
    (step 5 c3W (Op.execTransition [] c3Cmd)).2 = some Err.missingHandler ∧
    stateAt (step 5 c3W (Op.execTransition [] c3Cmd)).1 [] "L" = stateAt c3W [] "L" :=
  @C3_atomicity 4 c3W [] c3Cmd c3WCtx rfl rfl rfl

/-- C4: with `requireHandler` enabled and no handler for the
destination, the tell raises `MissingHandlerError` before committing;
but with `requireHandler` disabled the same tell does not silently
enter — it commits the transition (state recorded, context registered
live) and then raises a `TypeError` dereferencing the missing handler
(source line 332), contradicting the spec's silent-entry claim. -/
theorem C4_missingHandler_behaviour :
    c4RunStrict.2 = some .missingHandler ∧
    stateAt c4RunStrict.1 [] "L" = Option.none ∧
    c4RunLoose.2 = some .typeError ∧
    stateAt c4RunLoose.1 [] "L" = some "g" ∧
    liveAt c4RunLoose.1 [] "L" = true :=
  ⟨rfl, rfl, rfl, rfl, rfl⟩

/-- C5: guard lookup consults exactly one guard, chosen by precedence —
the exact `(from,to)` key, else `(from,*)`, else `(*,to)`, else
`(*,*)` — over every combination of the four registrations; and in the
all-four scenario `c5Run`, requesting `a → b` invokes only the `(a,b)`
guard ( the log shows `g:ab` and neither `g:aw` nor `g:wb` nor a
second wildcard hit). -/
theorem C5_guard_precedence :
    (∀ (a b : String), a ≠ "*" → b ≠ "*" →
      ∀ (b1 b2 b3 b4 : Bool) (h1 h2 h3 h4 : HandlerV),
        guardSelect (guardCombo a b b1 b2 b3 b4 h1 h2 h3 h4) (some a) b =
          (if b1 then some (a, b, h1)
           else if b2 then some (a, "*", h2)
           else if b3 then some ("*", b, h3)
           else if b4 then some ("*", "*", h4)
           else Option.none)) ∧
    c5Run.2 = Option.none ∧
    c5Run.1.log = ["g:ww", "s:a", "g:ab", "s:b"] ∧
    stateAt c5Run.1 [] "L" = some "b" := by
  refine ⟨?_, rfl, rfl, rfl⟩
  intro a b ha hb b1 b2 b3 b4 h1 h2 h3 h4
  cases b1 <;> cases b2 <;> cases b3 <;> cases b4 <;>
    simp [guardCombo, regGuard, guardSelect, pickFrom, pickTo, getA, setA,
      ha, hb, Ne.symm ha, Ne.symm hb]

/-- C5 witness: all four guards registered at concrete states. -/
theorem C5_witness :
    guardSelect (guardCombo "x" "y" true true true true wHandler wHandler wHandler wHandler)
      (some "x") "y" = some ("x", "y", wHandler) := by
  have h := C5_guard_precedence.1 "x" "y" (by decide) (by decide)
    true true true true wHandler wHandler wHandler wHandler
  simpa using h

/-- C6 counterexample: a node with an unrestricted child `A` and a
child `A` restricted to state `s` — both visible while the parent is
in `s` — constructs successfully instead of raising
`DuplicateChildError`. -/
theorem C6_cex :
    exceptOk c6Mixed = true ∧
    c6MixedNode.children.map Node.name = ["A", "A"] ∧
    c6MixedNode.hasChild "A" "s" = true :=
  ⟨rfl, rfl, rfl⟩

/-- C6 (amended): construction raises `DuplicateChildError` when the
two same-named children are both unrestricted, or both restricted to
an overlapping parent state; the mixed case (one restricted, one
unrestricted) does not raise, because the unrestricted check consults
only the "*" map and the restricted check only the per-state maps. -/
theorem C6_amended_duplicate (p : String) (sts : List String) (k1 k2 : Node) (s : String)
    (h : k1.name = k2.name) :
    (mkNode p sts [.plain k1, .plain k2] = .error .duplicateChild) ∧
    (s ∈ sts → mkNode p sts [.restrict [s] [k1], .restrict [s] [k2]] = .error .duplicateChild) := by
  constructor
  · simp [mkNode, buildChildren, getA, setA, getA_initChildMap_star, getA_setA, h,
      Bind.bind, Except.bind]
  · intro hmem
    simp [mkNode, buildChildren, addRestrictor, addRestricted, getA, setA,
      getA_initChildMap_mem hmem, getA_setA, h, Bind.bind, Except.bind]

/-- C6 witness: concrete duplicate trees of both shapes. -/
theorem C6_witness :
    mkNode "P" ["s"] [.plain c6A, .plain c6A] = .error .duplicateChild ∧
    mkNode "P" ["s"] [.restrict ["s"] [c6A], .restrict ["s"] [c6A]] = .error .duplicateChild :=
  ⟨(C6_amended_duplicate "P" ["s"] c6A c6A "s" rfl).1,
   (C6_amended_duplicate "P" ["s"] c6A c6A "s" rfl).2 (by simp)⟩

/-- C7 counterexample: with `L` live at `on` and its child `G` live at
`g1` (both with registered exit callbacks), committing the exit of `L`
runs only `L`'s own exit callback — `G`'s exit callback never runs, so
descendants are not recursively exited before teardown. -/
theorem C7_cex :
    c7Pre.2 = Option.none ∧
    liveAt c7Pre.1 [] "L" = true ∧
    liveAt c7Pre.1 ["L"] "G" = true ∧
    c7Run.2 = Option.none ∧
    c7Run.1.log = ["x:L"] ∧
    c7Run.1.log.contains "x:G" = false :=
  ⟨rfl, rfl, rfl, rfl, rfl, rfl⟩

/-- C7 (amended): when a parent commits the exit half of a transition,
only the old state's registered exit callback for that child runs and
the child's live-context entry is cleared; the child context's own
live descendants are not recursively exited — their exit callbacks do
not run, and the subtree is simply dropped (the replacement context
starts with no live children). -/
theorem C7_teardown :
    c7Run.2 = Option.none ∧
    stateAt c7Run.1 [] "L" = some "off" ∧
    liveAt c7Run.1 ["L"] "G" = false ∧
    c7Run.1.log = ["x:L"] :=
  ⟨rfl, rfl, rfl, rfl⟩

/-- C8: a matching guard whose enter callback returns nothing leaves
the initiating tell committed to nothing — the target stays at `r`,
the queue is empty and the guard is pending; invoking the stored
guard's `proceed()` later runs the guard's exit hook, then the
transition path (the empty queue takes the temporary-marker branch:
push, execute, shift, re-drain), committing the decided `g`. -/
theorem C8_pending_guard_proceed :
    c8Pre.2 = Option.none ∧
    stateAt c8Pre.1 [] "L" = some "r" ∧
    c8Pre.1.pendings.length = 1 ∧
    (queueAt c8Pre.1 [] "L").length = 0 ∧
    c8Run.2 = Option.none ∧
    stateAt c8Run.1 [] "L" = some "g" ∧
    c8Run.1.log = ["e:r", "g:in", "g:out", "e:g"] ∧
    (queueAt c8Run.1 [] "L").length = 0 :=
  ⟨rfl, rfl, rfl, rfl, rfl, rfl, rfl, rfl⟩

/-- C9: every pending queue of every context record holds at most two
entries: the bound holds of a freshly created machine and is preserved
by every interpreter operation (tell, ask, set, schedule, run, guard
proceed, update, and handler-program execution), including reentrant
scheduling from handlers and the temporary marker pushed by a guard's
`proceed()`. -/
theorem C9_queue_bound :
    (∀ (nodes : List Node) (m : Machine), createHSM nodes = .ok m → boundedB m = true) ∧
    (∀ (n : Nat) (op : Op) (m : Machine), boundedB m = true → boundedB (step n m op).1 = true) :=
  ⟨createHSM_bounded, fun n op m hm => step_bounded n m op hm⟩

/-- C9 witness: the bound at a concrete machine and operation. -/
theorem C9_witness :
    boundedB (initHSM [c10L]) = true ∧
    boundedB (step 5 (initHSM [c10L]) (Op.tell [] "L" "r")).1 = true :=
  ⟨C9_queue_bound.1 [c10L] (initHSM [c10L]) rfl,
   C9_queue_bound.2 5 (Op.tell [] "L" "r") (initHSM [c10L]) (by decide)⟩

/-- C10 counterexample: with `requireHandler` enabled and no handler
registered for "*", `tell(L, "*")` raises `MissingHandlerError` and
commits nothing — so it is not the case that for every context the
wildcard request is committed with "*" as the current state. -/
theorem C10_cex :
    c10Strict.2 = some .missingHandler ∧
    stateAt c10Strict.1 [] "L" = Option.none :=
  ⟨rfl, rfl⟩

/-- C10 (amended): `hasState` returns true for the literal "*" on
every node (even though "*" is never in the declared state list), so a
tell with destination "*" never fails `schedule`'s `UnknownStateError`
validation and is scheduled; when execution passes the missing-handler
check (here: a handler registered for "*"), the transition commits
with the literal "*" as the child's current state. -/
theorem C10_wildcard :
    (∀ (n : Node), n.hasState "*" = true) ∧
    c10Commit.2 = Option.none ∧
    stateAt c10Commit.1 [] "L" = some "*" ∧
    c10Commit.1.log = ["e:w"] := by
  refine ⟨?_, rfl, rfl, rfl⟩
  intro n
  simp [Node.hasState]
